import Mathlib

/-!
Verification of the client-level parsing and history-tracking module of the
Born to Ski dashboard repository.

The definitions below are a shallow embedding of:
  * `db.py` — `LEVEL_ORDER`, `_extract_nome_e_nivel`, `sync_clients_from_df`
    (clients upsert + level_history insertion);
  * `pages/2_Base_de_Clientes.py` — `LEVEL_ORDER_MAP`, `split_nome_e_nivel`;
  * `pages/3_Evolucao_de_Nivel.py` — `LEVELS`, `LEVEL_INDEX` and the
    "recent level changes" computation of the overview tab.

Python strings are modelled as Lean `String` (lists of characters); `None`
inputs are modelled by `Option`.  SQLite tables are modelled as lists of
records, machine-independent timestamps are passed in as parameters.
-/

namespace BornDashboard

/-! ## String primitives (Python semantics) -/

/-- Python `\s` whitespace class, ASCII part (space, tab, newline, carriage
return, vertical tab, form feed).  The labels handled by the extractor only
contain ASCII whitespace. -/
def isPySpace (c : Char) : Bool :=
  c == ' ' || c == '\t' || c == '\n' || c == '\r' || c == '\x0b' || c == '\x0c'

/-- Drop leading whitespace, as the left half of Python `str.strip()`. -/
def stripLeftChars : List Char → List Char
  | [] => []
  | c :: cs => if isPySpace c then stripLeftChars cs else c :: cs

/-- Python `str.strip()`: remove whitespace from both ends. -/
def pyStrip (s : String) : String :=
  ⟨(stripLeftChars (stripLeftChars s.data.reverse).reverse)⟩

/-- Python `str.upper()`, restricted to ASCII.  The extraction pattern only
inspects ASCII digits and the letters `A`-`D`/`S`/`K`/`B`/`I`, on which
`Char.toUpper` agrees with Python's Unicode uppercasing. -/
def pyUpper (s : String) : String :=
  ⟨s.data.map Char.toUpper⟩

/-- Lexicographic strict order on character lists, by code point
(`Char.toNat` is the code point): the order Python string comparison uses. -/
def charListLt : List Char → List Char → Bool
  | [], [] => false
  | [], _ :: _ => true
  | _ :: _, [] => false
  | a :: as, b :: bs =>
    if a.toNat < b.toNat then true
    else if b.toNat < a.toNat then false
    else charListLt as bs

/-- Python `<` on strings. -/
def strLt (a b : String) : Bool := charListLt a.data b.data

/-- Python `<=` on strings. -/
def strLe (a b : String) : Bool := strLt a b || a == b

/-! ## Level rules (`db.py`, "Regras de nível") -/

/-- The `LEVEL_ORDER` table from `db.py` — the literal rank table, `digit*10 +
letter index`. -/
def LEVEL_ORDER : List (String × Nat) :=
  [("1A", 10), ("1B", 11), ("1C", 12), ("1D", 13),
   ("2A", 20), ("2B", 21), ("2C", 22), ("2D", 23),
   ("3A", 30), ("3B", 31), ("3C", 32), ("3D", 33),
   ("4A", 40), ("4B", 41), ("4C", 42), ("4D", 43)]

/-- Python `LEVEL_ORDER.get(code)` — `None` when the key is absent. -/
def levelOrder (code : String) : Option Nat :=
  (LEVEL_ORDER.find? (fun p => p.1 == code)).map (·.2)

/-- The `LEVEL_ORDER_MAP` table of `pages/2_Base_de_Clientes.py` is a verbatim copy
of `LEVEL_ORDER` ("Mapa local de ordem de nível (independente do db.py)"). -/
def levelOrderMap (code : String) : Option Nat := levelOrder code

def isLevelDigit (c : Char) : Bool := '1' ≤ c && c ≤ '4'

def isLevelLetter (c : Char) : Bool := 'A' ≤ c && c ≤ 'D'

/-- One attempt of the regex `([1-4]\s*[A-D])` at the head of the character
list: a digit `1`-`4`, any run of whitespace, then a letter `A`-`D`.
Returns the matched characters (whitespace included, as `re.findall` keeps
them). -/
def levelMatchAt : List Char → Option (List Char)
  | [] => none
  | c :: cs =>
    if isLevelDigit c then
      match cs.dropWhile isPySpace with
      | d :: _ => if isLevelLetter d then some (c :: (cs.takeWhile isPySpace ++ [d])) else none
      | [] => none
    else none

/-- Python `re.findall(r"([1-4]\s*[A-D])", text)`: left-to-right scan collecting
non-overlapping matches.  `re.findall` resumes scanning at the end of each
match; since a match contains a digit only at its first character, no match
can begin strictly inside another one, so resuming at the next character —
as this structural recursion does — produces the same match list. -/
def findLevelMatches : List Char → List (List Char)
  | [] => []
  | c :: cs =>
    match levelMatchAt (c :: cs) with
    | some m => m :: findLevelMatches cs
    | none => findLevelMatches cs

/-- Python `m.replace(" ", "")` — Python `str.replace` of the space character only
(normalises `"2 B"` to `"2B"`). -/
def removeSpaces (m : List Char) : List Char := m.filter (fun c => c != ' ')

/-- All raw regex matches of the level pattern in `text.upper()`, with
internal spaces removed — the `matches` list right before the validity
filter in both extractors. -/
def levelMatches (text : String) : List String :=
  (findLevelMatches (pyUpper text).data).map (fun m => String.mk (removeSpaces m))

/-- The filter `[m for m in matches if m in LEVEL_ORDER]`. -/
def validLevelMatches (text : String) : List String :=
  (levelMatches text).filter (fun m => (levelOrder m).isSome)

/-- The key `lambda x: LEVEL_ORDER.get(x, -1)` used by `max`. -/
def rankKey (code : String) : Int :=
  match levelOrder code with
  | some n => (n : Int)
  | none => -1

/-- Python `max(x :: xs, key=key)`: first element of maximal key (later
elements replace the current best only when strictly greater). -/
def pyMaxBy (key : String → Int) (x : String) (xs : List String) : String :=
  xs.foldl (fun b y => if key b < key y then y else b) x

/-- The function `_extract_nome_e_nivel` from `db.py`.  The `None`/non-string input branch
(`if not isinstance(nome_bruto, str): return "", None`) is modelled by the
`none` case.  Returns `(nome_limpo, nivel)`. -/
def extractNomeENivel : Option String → String × Option String
  | none => ("", none)
  | some nomeBruto =>
    let texto := pyStrip nomeBruto
    if texto == "" then ("", none)
    else
      let ms := levelMatches texto
      if ms.isEmpty then (texto, none)
      else
        let valid := ms.filter (fun m => (levelOrder m).isSome)
        match valid with
        | [] => (texto, none)
        | x :: xs =>
          -- nome_limpo = texto.strip(); texto is already stripped
          (pyStrip texto, some (pyMaxBy rankKey x xs))

/-! ## `split_nome_e_nivel` (`pages/2_Base_de_Clientes.py`)

Same match/normalise/filter/max pipeline as `_extract_nome_e_nivel`, plus the
removal of recognised codes from the clean name via
`re.sub(r'\b' + code + r'(?:SKI?|SBI?)?\b', '', nome, flags=IGNORECASE)`. -/

/-- Python `\w` word characters, ASCII part (the inputs surrounding a level
code at the points where the removal pattern applies are ASCII). -/
def isWordChar (c : Char) : Bool := c.isAlpha || c.isDigit || c == '_'

/-- Case-insensitive character comparison (`re.IGNORECASE`, ASCII). -/
def ciEq (p c : Char) : Bool := Char.toUpper c == Char.toUpper p

/-- Match the literal pattern `ps` (case-insensitively) as a prefix of the
text; returns the consumed text characters and the rest. -/
def matchPrefixCI : List Char → List Char → Option (List Char × List Char)
  | [], l => some ([], l)
  | _ :: _, [] => none
  | p :: ps, c :: cs =>
    if ciEq p c then
      match matchPrefixCI ps cs with
      | some (m, r) => some (c :: m, r)
      | none => none
    else none

/-- Does the next character start with a word character (`false` at the end
of the string)? -/
def headIsWord (l : List Char) : Bool :=
  match l with
  | c :: _ => isWordChar c
  | [] => false

/-- One attempt of `\b CODE (?:SKI?|SBI?)? \b` at the current position.
`prev` is the character just before this position in the original string
(`none` at the start).  Since the pattern begins and ends with word
characters (digits/letters), the two `\b` anchors reduce to: the neighbour
outside the match is absent or a non-word character.  The optional group is
tried in the regex backtracking order `SKI`, `SK`, `SBI`, `SB`, empty.
Returns `(matched span, rest)`. -/
def removalMatchAt (code : List Char) (prev : Option Char) (l : List Char) :
    Option (List Char × List Char) :=
  if code.isEmpty then none
  else if (match prev with | some c => isWordChar c | none => false) then none
  else
    match matchPrefixCI code l with
    | none => none
    | some (mc, rest1) =>
      let trySfx (sfx : List Char) : Option (List Char × List Char) :=
        match matchPrefixCI sfx rest1 with
        | some (ms, rest2) => if headIsWord rest2 then none else some (mc ++ ms, rest2)
        | none => none
      match trySfx ['S', 'K', 'I'] with
      | some r => some r
      | none =>
        match trySfx ['S', 'K'] with
        | some r => some r
        | none =>
          match trySfx ['S', 'B', 'I'] with
          | some r => some r
          | none =>
            match trySfx ['S', 'B'] with
            | some r => some r
            | none => if headIsWord rest1 then none else some (mc, rest1)

/-- A `re.sub(pattern, '', text)` scan, fuel-indexed so that the recursion is
structural (`fuel ≥ text.length` always suffices: every step consumes at
least one character).  Matching is performed against the original string
left to right, exactly as `re.sub` does; a match's span is dropped from the
output and scanning resumes after it, with `prev` tracking the character
preceding the current position in the original string. -/
def removeCodeScan (code : List Char) : Nat → Option Char → List Char → List Char
  | 0, _, l => l
  | _ + 1, _, [] => []
  | fuel + 1, prev, c :: cs =>
    match removalMatchAt code prev (c :: cs) with
    | some (m, rest) => removeCodeScan code fuel m.getLast? rest
    | none => c :: removeCodeScan code fuel (some c) cs

/-- Remove every occurrence of `\b code (?:SKI?|SBI?)? \b` from the text. -/
def removeCode (code : String) (text : List Char) : List Char :=
  removeCodeScan code.data text.length none text

/-- Iteration over `set(matches)`: Python set iteration order is hash-table
order; it is modelled as first-occurrence order.  The removals performed
here are order-independent because each code's pattern is anchored between
non-word neighbours, which a removal of a different code does not create at
the relevant positions of the inputs considered. -/
def firstDedup (l : List String) : List String :=
  l.foldl (fun acc x => if x ∈ acc then acc else acc ++ [x]) []

/-- Python `re.sub(r'\s+', ' ', text)`: collapse every whitespace run to a single
space. -/
def collapseSpaces (l : List Char) : List Char :=
  l.foldr
    (fun c acc =>
      if isPySpace c then
        match acc with
        | ' ' :: _ => acc
        | _ => ' ' :: acc
      else c :: acc)
    []

/-- The code-removal loop of `split_nome_e_nivel`. -/
def removeAllCodes (codes : List String) (text : List Char) : List Char :=
  codes.foldl (fun t code => removeCode code t) text

/-- The function `split_nome_e_nivel` from `pages/2_Base_de_Clientes.py`.  Returns
`(nome_limpo, nivel_atual, nivel_ordem)`.  `if not nome` (Python falsiness:
`None` or the empty string) is the early exit. -/
def splitNomeENivel : Option String → String × Option String × Option Nat
  | none => ("", none, none)
  | some nome =>
    if nome == "" then ("", none, none)
    else
      let nomeStr := pyStrip nome
      let ms := levelMatches nomeStr
      if ms.isEmpty then (nomeStr, none, none)
      else
        let valid := ms.filter (fun m => (levelOrder m).isSome)
        match valid with
        | [] => (nomeStr, none, none)
        | x :: xs =>
          let best := pyMaxBy rankKey x xs
          let nivelOrdem := levelOrderMap best
          let nomeLimpo :=
            pyStrip ⟨collapseSpaces (removeAllCodes (firstDedup (x :: xs)) nomeStr.data)⟩
          (nomeLimpo, some best, nivelOrdem)

/-! ## Level constants of `pages/3_Evolucao_de_Nivel.py` -/

/-- The `LEVELS` list — the sixteen codes in order. -/
def LEVELS : List String :=
  ["1A", "1B", "1C", "1D",
   "2A", "2B", "2C", "2D",
   "3A", "3B", "3C", "3D",
   "4A", "4B", "4C", "4D"]

/-- The dict `LEVEL_INDEX` built by enumerating `LEVELS` — `1A = 0`. -/
def levelIndex (code : String) : Option Nat :=
  LEVELS.findIdx? (fun l => l == code)

/-! ## Database model (`db.py`)

The `clients` table (primary key `evo_id`) and the append-only
`level_history` table (`id INTEGER PRIMARY KEY AUTOINCREMENT`).  The
`created_at`/`updated_at` audit timestamps carry no business meaning; the
CURRENT_TIMESTAMP value is passed in as the `now` parameter and the history
audit column is omitted (no claim depends on it). -/

structure ClientRow where
  evoId : String
  nomeBruto : String
  nomeLimpo : String
  sexo : Option String
  nascimento : Option String
  idade : Option Int
  rua : Option String
  numero : Option String
  complemento : Option String
  bairro : Option String
  cidade : Option String
  uf : Option String
  cep : Option String
  email : Option String
  telefone : Option String
  criadoEm : Option String
  nivelAtual : Option String
  nivelOrdem : Option Nat
  updatedAt : String
deriving DecidableEq

structure HistoryRow where
  id : Nat
  evoId : String
  data : String
  nivel : String
  nivelOrdem : Option Nat
  origem : String
deriving DecidableEq

structure DBState where
  clients : List ClientRow
  history : List HistoryRow
  nextHistId : Nat
deriving DecidableEq

def emptyDB : DBState := ⟨[], [], 0⟩

/-- One row of the "friendly" clients DataFrame handed to
`sync_clients_from_df`.  `idCliente` is the already-stringified
`str(get(row, "IdCliente", ""))`; absent columns are `none` (the `get`
helper's default). -/
structure DfRow where
  idCliente : String
  nome : Option String
  sexo : Option String
  nascimento : Option String
  idade : Option Int
  rua : Option String
  numero : Option String
  complemento : Option String
  bairro : Option String
  cidade : Option String
  uf : Option String
  cep : Option String
  email : Option String
  telefone : Option String
  criadoEm : Option String
deriving DecidableEq

/-- SQL `COALESCE(a, b)`. -/
def coalesce (a b : Option String) : Option String :=
  match a with
  | some v => some v
  | none => b

/-- The row produced by the `DO UPDATE` branch: every column is overwritten
with the excluded (new) row's value except
`criado_em = COALESCE(clients.criado_em, excluded.criado_em)`. -/
def updatedRow (old new : ClientRow) : ClientRow :=
  { new with criadoEm := coalesce old.criadoEm new.criadoEm }

/-- The `INSERT ... ON CONFLICT(evo_id) DO UPDATE` statement: insert a new
row, or update the existing row keyed by `evo_id`. -/
def upsertClient (cs : List ClientRow) (new : ClientRow) : List ClientRow :=
  if cs.any (fun c => c.evoId == new.evoId) then
    cs.map (fun c => if c.evoId == new.evoId then updatedRow c new else c)
  else cs ++ [new]

/-- SQL `SELECT nivel_atual FROM clients WHERE evo_id = ?` (the primary key
guarantees at most one row; `find?` returns it). -/
def prevLevel (s : DBState) (evoId : String) : Option String :=
  (s.clients.find? (fun c => c.evoId == evoId)).bind ClientRow.nivelAtual

/-- Python `evo_id = str(get(row, "IdCliente", "")).strip()`. -/
def rowEvoId (r : DfRow) : String := pyStrip r.idCliente

/-- Python `nome_bruto = str(get(row, "Nome", "") or "").strip()`. -/
def rowNomeBruto (r : DfRow) : String := pyStrip (r.nome.getD "")

/-- Python `nome_limpo, nivel = _extract_nome_e_nivel(nome_bruto)`. -/
def rowExtract (r : DfRow) : String × Option String :=
  extractNomeENivel (some (rowNomeBruto r))

/-- The parameter tuple of the upsert: every DataFrame column plus the
extracted name/level and `nivel_ordem = LEVEL_ORDER.get(nivel)`
(`dict.get` of `None` is `None`, hence `Option.bind`). -/
def newClientRow (r : DfRow) (now : String) : ClientRow :=
  { evoId := rowEvoId r, nomeBruto := rowNomeBruto r, nomeLimpo := (rowExtract r).1,
    sexo := r.sexo, nascimento := r.nascimento, idade := r.idade,
    rua := r.rua, numero := r.numero, complemento := r.complemento,
    bairro := r.bairro, cidade := r.cidade, uf := r.uf, cep := r.cep,
    email := r.email, telefone := r.telefone, criadoEm := r.criadoEm,
    nivelAtual := (rowExtract r).2, nivelOrdem := (rowExtract r).2.bind levelOrder,
    updatedAt := now }

/-- The `level_history` insert of the sync loop, in the branch where
`nivel = some l` (there `nivel_ordem = LEVEL_ORDER.get(nivel) =
levelOrder l`). -/
def newHistRow (s : DBState) (r : DfRow) (hoje : String) (l : String) : HistoryRow :=
  { id := s.nextHistId, evoId := rowEvoId r, data := hoje, nivel := l,
    nivelOrdem := levelOrder l, origem := "sync_clientes" }

/-- The body of the per-row loop of `sync_clients_from_df`: skip rows with a
blank `IdCliente`, extract the level from the name, read the previous level
before the upsert, upsert the client, and insert a `level_history` row when
`nivel and nivel != nivel_anterior` (the extractor never returns an empty
string, so Python truthiness of `nivel` is the `some` case).  `hoje` is
`date.today().isoformat()`, computed once per sync run. -/
def syncOneRow (s : DBState) (r : DfRow) (hoje now : String) : DBState :=
  if rowEvoId r == "" then s
  else
    let clients' := upsertClient s.clients (newClientRow r now)
    match (rowExtract r).2 with
    | some l =>
      if some l ≠ prevLevel s (rowEvoId r) then
        { clients := clients',
          history := s.history ++ [newHistRow s r hoje l],
          nextHistId := s.nextHistId + 1 }
      else { s with clients := clients' }
    | none => { s with clients := clients' }

/-- The function `sync_clients_from_df`: the per-row loop over the DataFrame.  (The
returned `processed` counter plays no role in the claims.) -/
def syncClientsFromDf (s : DBState) (rows : List DfRow) (hoje now : String) : DBState :=
  rows.foldl (fun st r => syncOneRow st r hoje now) s

/-- Number of `level_history` rows of one client. -/
def histCount (s : DBState) (evoId : String) : Nat :=
  (s.history.filter (fun h => h.evoId == evoId)).length

/-! ## Recent level changes (`pages/3_Evolucao_de_Nivel.py`, overview tab)

The page reads the whole `level_history` table, sorts by
`(evo_id, data, id)`, computes each entry's `nivel_prev` with
`groupby("evo_id")["nivel"].shift(1)`, flags real changes, and keeps flagged
entries with `data >= cutoff`.  Dates written by the sync are ISO-8601
strings, on which the `data_dt` (parsed-date) sort order used by the page
coincides with the lexicographic string order used here. -/

def ZERO_ACTIVATION_DATE : String := "2025-11-17"

/-- Sort key `(data, id)` inside one client's group. -/
def histLE (a b : HistoryRow) : Bool :=
  strLt a.data b.data || (a.data == b.data && decide (a.id ≤ b.id))

def insertSorted (x : HistoryRow) : List HistoryRow → List HistoryRow
  | [] => [x]
  | y :: ys => if histLE x y then x :: y :: ys else y :: insertSorted x ys

/-- Insertion sort by `(data, id)`; total within a client because ids are
unique. -/
def sortHist (l : List HistoryRow) : List HistoryRow :=
  l.foldr insertSorted []

/-- The change flags of one client's sorted history: `prev` is the level of
the immediately preceding entry (`none` for the first entry).
`mask_mudanca_normal`: a previous entry exists and the level differs.
`mask_de_zero_para_nivel`: no previous entry, and
`data >= ZERO_ACTIVATION_DATE` (the `nivel` column is `NOT NULL`, so the
`notna` conjunct always holds). -/
def markChanges (prev : Option String) : List HistoryRow → List (HistoryRow × Bool)
  | [] => []
  | h :: hs =>
    let isChange :=
      match prev with
      | some p => p != h.nivel
      | none => strLe ZERO_ACTIVATION_DATE h.data
    (h, isChange) :: markChanges (some h.nivel) hs

/-- The flagged-as-change entries of one client's sorted history. -/
def clientChanges (l : List HistoryRow) : List HistoryRow :=
  ((markChanges none l).filter (fun p => p.2)).map (fun p => p.1)

/-- The `df_changes` table: all real changes across clients with `data >= cutoff`
(`cutoff = (date.today() - timedelta(days=dias)).isoformat()`). -/
def recentChanges (hist : List HistoryRow) (cutoff : String) : List HistoryRow :=
  ((firstDedup (hist.map (fun h => h.evoId))).flatMap
      (fun cid => clientChanges (sortHist (hist.filter (fun h => h.evoId == cid))))).filter
    (fun h => strLe cutoff h.data)

/-! ## Spec-modelled definitions -/

/-- Modelled from the spec: the event-date fallback chain of
`record_level_if_changed` — "if not supplied, fall back to the date of the
client's most recent attended session, and if that is unavailable, fall back
to today".  No code under `src/` consults session data when writing
`level_history`; this definition exists only to state claim C7 against the
code. -/
def specEventDate (lastAttendedSession : Option String) (today : String) : String :=
  lastAttendedSession.getD today

/-- Modelled from the spec: the discipline tag the spec says the extractor
returns alongside the level (`SK`, `SB`, or undesignated).  No extractor in
`src/` produces such a tag; the type exists only to state claim C5. -/
inductive Discipline where
  | SK : Discipline
  | SB : Discipline
  | undesignated : Discipline
deriving DecidableEq

/-! ## Concrete instances used by witnesses and counterexamples -/

/-- A DataFrame row template with every optional column absent. -/
def baseRow : DfRow :=
  { idCliente := "", nome := none, sexo := none, nascimento := none,
    idade := none, rua := none, numero := none, complemento := none,
    bairro := none, cidade := none, uf := none, cep := none,
    email := none, telefone := none, criadoEm := none }

/-- Client 7 observed with name `MARIA 1B` (level `1B`). -/
def rowMaria1B : DfRow := { baseRow with idCliente := "7", nome := some "MARIA 1B" }

/-- Client 7 observed with name `MARIA` (no level token). -/
def rowMariaNoLevel : DfRow := { baseRow with idCliente := "7", nome := some "MARIA" }

/-- Three consecutive sync runs for client 7: level `1B` observed, then a
name with no level (which nulls the stored `nivel_atual`), then `1B`
again. -/
def stDup : DBState :=
  syncClientsFromDf
    (syncClientsFromDf
      (syncClientsFromDf emptyDB [rowMaria1B] "2025-10-01" "t1")
      [rowMariaNoLevel] "2025-10-02" "t2")
    [rowMaria1B] "2025-10-03" "t3"

/-- A lone pre-activation baseline history row for client 7. -/
def baselineRow : HistoryRow :=
  { id := 0, evoId := "7", data := "2025-10-01", nivel := "1B",
    nivelOrdem := some 11, origem := "sync_clientes" }

/-- An existing stored client row for client 7 (level `1A`, created in
2020). -/
def clientOld : ClientRow :=
  { evoId := "7", nomeBruto := "MARIA 1A", nomeLimpo := "MARIA 1A",
    sexo := some "Feminino", nascimento := none, idade := none, rua := none,
    numero := none, complemento := none, bairro := none, cidade := none,
    uf := none, cep := none, email := none, telefone := none,
    criadoEm := some "2020-01-01", nivelAtual := some "1A",
    nivelOrdem := some 10, updatedAt := "t0" }

/-- The excluded (new) row of an upsert for client 7: level `1B`, new
contact data, and a freshly computed `criado_em` candidate. -/
def clientNew : ClientRow :=
  { clientOld with
    nomeBruto := "MARIA 1B"
    nomeLimpo := "MARIA 1B"
    email := some "maria@example.com"
    criadoEm := some "2025-10-12"
    nivelAtual := some "1B"
    nivelOrdem := some 11
    updatedAt := "t1" }

/-! ## Helper lemmas -/

/-- Python `max` returns an element of its argument list that is maximal for
the key (the first such element). -/
theorem pyMaxBy_spec (key : String → Int) (x : String) (xs : List String) :
    pyMaxBy key x xs ∈ x :: xs ∧ ∀ m ∈ x :: xs, key m ≤ key (pyMaxBy key x xs) := by
  unfold pyMaxBy
  induction xs generalizing x with
  | nil => simp
  | cons y ys ih =>
    simp only [List.foldl_cons]
    by_cases h : key x < key y
    · simp only [if_pos h]
      obtain ⟨hmem, hle⟩ := ih y
      refine ⟨?_, ?_⟩
      · rcases List.mem_cons.mp hmem with h1 | h1
        · exact List.mem_cons_of_mem _ (by rw [h1]; exact List.mem_cons_self _ _)
        · exact List.mem_cons_of_mem _ (List.mem_cons_of_mem _ h1)
      · intro m hm
        rcases List.mem_cons.mp hm with rfl | hm
        · exact le_of_lt (lt_of_lt_of_le h (hle y (List.mem_cons_self _ _)))
        · exact hle m hm
    · simp only [if_neg h]
      obtain ⟨hmem, hle⟩ := ih x
      refine ⟨?_, ?_⟩
      · rcases List.mem_cons.mp hmem with h1 | h1
        · rw [h1]
          exact List.mem_cons_self _ _
        · exact List.mem_cons_of_mem _ (List.mem_cons_of_mem _ h1)
      · intro m hm
        rcases List.mem_cons.mp hm with rfl | hm
        · exact hle m (List.mem_cons_self _ _)
        · rcases List.mem_cons.mp hm with rfl | hm
          · exact le_trans (le_of_not_lt h) (hle x (List.mem_cons_self _ _))
          · exact hle m (List.mem_cons_of_mem _ hm)

theorem charListLt_asymm : ∀ a b : List Char, charListLt a b = true → charListLt b a = false
  | [], [] => by simp [charListLt]
  | [], _ :: _ => by simp [charListLt]
  | _ :: _, [] => by simp [charListLt]
  | a :: as, b :: bs => by
    simp only [charListLt]
    by_cases h1 : a.toNat < b.toNat
    · rw [if_pos h1, if_neg (show ¬b.toNat < a.toNat by omega), if_pos h1]
      intro _
      rfl
    · by_cases h2 : b.toNat < a.toNat
      · rw [if_neg h1, if_pos h2]
        simp
      · rw [if_neg h1, if_neg h2, if_neg h2, if_neg h1]
        exact charListLt_asymm as bs

theorem charListLt_ne : ∀ a b : List Char, charListLt a b = true → a ≠ b
  | [], [] => by simp [charListLt]
  | [], _ :: _ => by simp
  | _ :: _, [] => by simp [charListLt]
  | a :: as, b :: bs => by
    simp only [charListLt]
    by_cases h1 : a.toNat < b.toNat
    · intro _ he
      injection he with hab _
      subst hab
      omega
    · by_cases h2 : b.toNat < a.toNat
      · rw [if_neg h1, if_pos h2]
        simp
      · rw [if_neg h1, if_neg h2]
        intro h he
        injection he with _ htl
        exact charListLt_ne as bs h htl

/-- If `a < b` as strings then `b <= a` is false. -/
theorem strLe_false_of_strLt {a b : String} (h : strLt a b = true) : strLe b a = false := by
  have h1 : charListLt b.data a.data = false := charListLt_asymm _ _ h
  have h2 : a.data ≠ b.data := charListLt_ne _ _ h
  have h3 : b ≠ a := fun e => h2 (congrArg String.data e.symm)
  simp [strLe, strLt, h1, h3]

theorem find?_map_congr {α : Type} (f : α → α) (q : α → Bool) (hq : ∀ x, q (f x) = q x) :
    ∀ l : List α, (l.map f).find? q = (l.find? q).map f := by
  intro l
  induction l with
  | nil => rfl
  | cons x xs ih =>
    simp only [List.map_cons]
    cases hx : q x
    · rw [List.find?_cons_of_neg _ (by rw [hq x, hx]; simp),
        List.find?_cons_of_neg _ (by rw [hx]; simp), ih]
    · rw [List.find?_cons_of_pos _ (by rw [hq x, hx]),
        List.find?_cons_of_pos _ hx]
      rfl

theorem find?_append_of_none {α : Type} (p : α → Bool) (l₁ l₂ : List α)
    (h : l₁.find? p = none) : (l₁ ++ l₂).find? p = l₂.find? p := by
  induction l₁ with
  | nil => rfl
  | cons x xs ih =>
    cases hx : p x
    · rw [List.cons_append, List.find?_cons_of_neg _ (by simp [hx])]
      exact ih (by rwa [List.find?_cons_of_neg _ (by simp [hx])] at h)
    · rw [List.find?_cons_of_pos _ hx] at h
      exact absurd h (by simp)

/-- The row the upsert leaves under the key `new.evoId`: the updated
existing row, or the inserted new row. -/
theorem upsert_find (cs : List ClientRow) (new : ClientRow) :
    (upsertClient cs new).find? (fun c => c.evoId == new.evoId) =
      some ((cs.find? (fun c => c.evoId == new.evoId)).elim new
              (fun c => updatedRow c new)) := by
  have hq : ∀ x : ClientRow,
      ((if x.evoId == new.evoId then updatedRow x new else x).evoId == new.evoId)
        = (x.evoId == new.evoId) := by
    intro x
    cases hx : (x.evoId == new.evoId)
    · rw [if_neg (by simp)]
      exact hx
    · rw [if_pos rfl]
      simp [updatedRow]
  unfold upsertClient
  cases hf : cs.find? (fun c => c.evoId == new.evoId) with
  | none =>
    have hany : cs.any (fun c => c.evoId == new.evoId) = false := by
      rw [List.any_eq_false]
      intro x hx
      simpa using List.find?_eq_none.mp hf x hx
    rw [if_neg (by simp [hany]), find?_append_of_none _ _ _ hf]
    simp [List.find?]
  | some c =>
    have hpc := List.find?_some hf
    have hany : cs.any (fun c => c.evoId == new.evoId) = true :=
      List.any_eq_true.mpr ⟨c, List.mem_of_find?_eq_some hf, hpc⟩
    rw [if_pos hany, find?_map_congr _ _ hq cs, hf]
    rw [show (Option.map (fun c => if c.evoId == new.evoId then updatedRow c new else c)
          (some c)) = some (if c.evoId == new.evoId then updatedRow c new else c) from rfl]
    rw [if_pos hpc]
    rfl

/-- After the upsert, the stored `nivel_atual` under the new row's key is
the new row's level (both the update and the insert branch write it). -/
theorem upsert_find_nivelAtual (cs : List ClientRow) (new : ClientRow) :
    ((upsertClient cs new).find? (fun c => c.evoId == new.evoId)).bind
        ClientRow.nivelAtual = new.nivelAtual := by
  rw [upsert_find]
  cases hf : cs.find? (fun c => c.evoId == new.evoId) <;> simp [hf, updatedRow]

/-- Every row of the upserted table is an untouched old row or carries the
new row's `nivel_atual`/`nivel_ordem` pair. -/
theorem mem_upsertClient (cs : List ClientRow) (new : ClientRow) :
    ∀ c ∈ upsertClient cs new,
      c ∈ cs ∨ (c.nivelAtual = new.nivelAtual ∧ c.nivelOrdem = new.nivelOrdem) := by
  intro c hc
  unfold upsertClient at hc
  by_cases hany : cs.any (fun x => x.evoId == new.evoId) = true
  · rw [if_pos hany] at hc
    obtain ⟨x, hx, hfx⟩ := List.mem_map.mp hc
    by_cases hxe : (x.evoId == new.evoId) = true
    · rw [if_pos hxe] at hfx
      right
      rw [← hfx]
      exact ⟨rfl, rfl⟩
    · rw [if_neg hxe] at hfx
      left
      rwa [← hfx]
  · rw [if_neg hany] at hc
    rcases List.mem_append.mp hc with h | h
    · exact Or.inl h
    · right
      rcases List.mem_singleton.mp h with rfl
      exact ⟨rfl, rfl⟩

/-- After a processed sync row, the stored level of that client is exactly
the level just extracted from the row's name. -/
theorem prevLevel_syncOneRow (s : DBState) (r : DfRow) (hoje now : String)
    (hid : (rowEvoId r == "") = false) :
    prevLevel (syncOneRow s r hoje now) (rowEvoId r) = (rowExtract r).2 := by
  have hup : ((upsertClient s.clients (newClientRow r now)).find?
      (fun c => c.evoId == rowEvoId r)).bind ClientRow.nivelAtual = (rowExtract r).2 :=
    upsert_find_nivelAtual s.clients (newClientRow r now)
  unfold prevLevel
  simp only [syncOneRow, hid, Bool.false_eq_true, if_false]
  cases hx : (rowExtract r).2 with
  | some l =>
    rw [hx] at hup
    by_cases hne : some l ≠ prevLevel s (rowEvoId r)
    · simp only [if_pos hne]
      exact hup
    · simp only [if_neg hne]
      exact hup
  | none =>
    rw [hx] at hup
    exact hup

/-- When `_extract_nome_e_nivel` reports a level, that level is one of the
valid matched tokens and maximises the rank key among them. -/
theorem extract_level_spec (s : String) (b : String)
    (h : (extractNomeENivel (some s)).2 = some b) :
    b ∈ validLevelMatches (pyStrip s) ∧
      ∀ m ∈ validLevelMatches (pyStrip s), rankKey m ≤ rankKey b := by
  simp only [extractNomeENivel] at h
  by_cases h0 : (pyStrip s == "") = true
  · rw [if_pos h0] at h
    exact absurd h (by simp)
  · rw [if_neg h0] at h
    by_cases h1 : (levelMatches (pyStrip s)).isEmpty = true
    · rw [if_pos h1] at h
      exact absurd h (by simp)
    · rw [if_neg h1] at h
      cases hv : (levelMatches (pyStrip s)).filter (fun m => (levelOrder m).isSome) with
      | nil =>
        rw [hv] at h
        exact absurd h (by simp)
      | cons x xs =>
        rw [hv] at h
        simp only [Option.some.injEq] at h
        obtain ⟨hmem, hmax⟩ := pyMaxBy_spec rankKey x xs
        have hvv : validLevelMatches (pyStrip s) = x :: xs := hv
        rw [hvv, ← h]
        exact ⟨hmem, hmax⟩

/-- The functions `split_nome_e_nivel` and `_extract_nome_e_nivel` agree on the extracted
level, and the former's `nivel_ordem` is `LEVEL_ORDER.get` of that level. -/
theorem split_eq_extract (s : String) :
    (splitNomeENivel (some s)).2.1 = (extractNomeENivel (some s)).2 ∧
    (splitNomeENivel (some s)).2.2 = (extractNomeENivel (some s)).2.bind levelOrder := by
  by_cases hs : (s == "") = true
  · have hs' : s = "" := by simpa using hs
    subst hs'
    exact ⟨rfl, rfl⟩
  · simp only [splitNomeENivel, extractNomeENivel, if_neg hs]
    by_cases h0 : (pyStrip s == "") = true
    · have hps : pyStrip s = "" := by simpa using h0
      rw [if_pos h0, hps]
      exact ⟨rfl, rfl⟩
    · rw [if_neg h0]
      by_cases h1 : (levelMatches (pyStrip s)).isEmpty = true
      · rw [if_pos h1, if_pos h1]
        exact ⟨rfl, rfl⟩
      · rw [if_neg h1, if_neg h1]
        cases hv : (levelMatches (pyStrip s)).filter (fun m => (levelOrder m).isSome) with
        | nil => exact ⟨rfl, rfl⟩
        | cons x xs => exact ⟨rfl, rfl⟩

/-- Skipped row (blank `IdCliente`): the sync leaves the state unchanged. -/
theorem syncOneRow_skip (s : DBState) (r : DfRow) (hoje now : String)
    (hid : (rowEvoId r == "") = true) :
    syncOneRow s r hoje now = s := by
  unfold syncOneRow
  rw [if_pos hid]

/-- A processed row with a changed level appends exactly one history row. -/
theorem syncOneRow_history_insert (s : DBState) (r : DfRow) (hoje now : String)
    (hid : (rowEvoId r == "") = false) {l : String}
    (hx : (rowExtract r).2 = some l) (hne : some l ≠ prevLevel s (rowEvoId r)) :
    (syncOneRow s r hoje now).history = s.history ++ [newHistRow s r hoje l] := by
  unfold syncOneRow
  rw [if_neg (by simp [hid]), hx]
  dsimp only
  rw [if_pos hne]

/-- A processed row whose level equals the stored one (or has no level)
leaves the history unchanged. -/
theorem syncOneRow_history_noop_eq (s : DBState) (r : DfRow) (hoje now : String)
    {l : String} (hx : (rowExtract r).2 = some l)
    (heq : some l = prevLevel s (rowEvoId r)) :
    (syncOneRow s r hoje now).history = s.history := by
  unfold syncOneRow
  by_cases hid : (rowEvoId r == "") = true
  · rw [if_pos hid]
  · rw [if_neg hid, hx]
    dsimp only
    rw [if_neg (by simpa using heq)]

/-- A processed row with no extracted level leaves the history unchanged. -/
theorem syncOneRow_history_noop_none (s : DBState) (r : DfRow) (hoje now : String)
    (hx : (rowExtract r).2 = none) :
    (syncOneRow s r hoje now).history = s.history := by
  unfold syncOneRow
  by_cases hid : (rowEvoId r == "") = true
  · rw [if_pos hid]
  · rw [if_neg hid, hx]

theorem take_append_self {α : Type} (l₁ l₂ : List α) :
    (l₁ ++ l₂).take l₁.length = l₁ := by
  induction l₁ with
  | nil => rfl
  | cons x xs ih => simp [ih]

theorem drop_append_self {α : Type} (l₁ l₂ : List α) :
    (l₁ ++ l₂).drop l₁.length = l₂ := by
  induction l₁ with
  | nil => rfl
  | cons x xs ih => simp [ih]

theorem mem_markChanges (p : Option String) (l : List HistoryRow)
    (x : HistoryRow × Bool) (hx : x ∈ markChanges p l) : x.1 ∈ l := by
  induction l generalizing p with
  | nil => cases hx
  | cons h hs ih =>
    simp only [markChanges] at hx
    rcases List.mem_cons.mp hx with rfl | hx
    · exact List.mem_cons_self _ _
    · exact List.mem_cons_of_mem _ (ih _ hx)

theorem mem_clientChanges (l : List HistoryRow) (h : HistoryRow)
    (hh : h ∈ clientChanges l) : h ∈ l := by
  unfold clientChanges at hh
  obtain ⟨x, hx, hfx⟩ := List.mem_map.mp hh
  have := mem_markChanges none l x (List.mem_of_mem_filter hx)
  rwa [hfx] at this

theorem mem_insertSorted (x y : HistoryRow) (l : List HistoryRow)
    (h : x ∈ insertSorted y l) : x = y ∨ x ∈ l := by
  induction l with
  | nil => simpa [insertSorted] using h
  | cons z zs ih =>
    unfold insertSorted at h
    by_cases hc : histLE y z = true
    · rw [if_pos hc] at h
      rcases List.mem_cons.mp h with rfl | h
      · exact Or.inl rfl
      · exact Or.inr h
    · rw [if_neg hc] at h
      rcases List.mem_cons.mp h with rfl | h
      · exact Or.inr (List.mem_cons_self _ _)
      · rcases ih h with h1 | h1
        · exact Or.inl h1
        · exact Or.inr (List.mem_cons_of_mem _ h1)

theorem mem_sortHist (l : List HistoryRow) (x : HistoryRow)
    (h : x ∈ sortHist l) : x ∈ l := by
  unfold sortHist at h
  induction l with
  | nil => cases h
  | cons y ys ih =>
    simp only [List.foldr_cons] at h
    rcases mem_insertSorted x y _ h with rfl | h1
    · exact List.mem_cons_self _ _
    · exact List.mem_cons_of_mem _ (ih h1)

/-- An entry whose immediately preceding entry in the same client's ordered
history has the same level is flagged as not-a-change, wherever the pair
sits in the list. -/
theorem markChanges_dup (p : Option String) (pre post : List HistoryRow)
    (a b : HistoryRow) (hab : a.nivel = b.nivel) :
    markChanges p (pre ++ a :: b :: post) =
      markChanges p (pre ++ [a]) ++ (b, false) :: markChanges (some b.nivel) post := by
  induction pre generalizing p with
  | nil =>
    simp only [List.nil_append, markChanges, hab]
    simp
  | cons x pre ih =>
    simp only [List.cons_append, markChanges, List.append_eq]
    rw [ih]

/-- When the valid-match list is nonempty, `_extract_nome_e_nivel` returns
its rank maximum. -/
theorem extract_eq_max (s : String) (x : String) (xs : List String)
    (hv : validLevelMatches (pyStrip s) = x :: xs) :
    (extractNomeENivel (some s)).2 = some (pyMaxBy rankKey x xs) := by
  have hms : levelMatches (pyStrip s) ≠ [] := by
    intro h0
    rw [validLevelMatches, h0] at hv
    exact absurd hv (by simp)
  have hps : (pyStrip s == "") = false := by
    cases hb : (pyStrip s == "")
    · rfl
    · have he : pyStrip s = "" := by simpa using hb
      exact absurd (by rw [he]; rfl : levelMatches (pyStrip s) = []) hms
  have hne : (levelMatches (pyStrip s)).isEmpty = false := by
    cases hi : (levelMatches (pyStrip s)).isEmpty
    · rfl
    · exact absurd (List.isEmpty_iff.mp hi) hms
  simp only [extractNomeENivel, hps, Bool.false_eq_true, if_false, hne]
  rw [show (levelMatches (pyStrip s)).filter (fun m => (levelOrder m).isSome) = x :: xs
        from hv]

/-- The history of a sync step is either unchanged or extended by exactly
one row carrying the extracted level. -/
theorem syncOneRow_history_shape (s : DBState) (r : DfRow) (hoje now : String) :
    (syncOneRow s r hoje now).history = s.history ∨
    ∃ l, (rowExtract r).2 = some l ∧
         (syncOneRow s r hoje now).history = s.history ++ [newHistRow s r hoje l] := by
  by_cases hid : (rowEvoId r == "") = true
  · left
    rw [syncOneRow_skip s r hoje now hid]
  · have hid' : (rowEvoId r == "") = false := by
      cases hb : (rowEvoId r == "")
      · rfl
      · exact absurd hb hid
    cases hx : (rowExtract r).2 with
    | none => exact Or.inl (syncOneRow_history_noop_none s r hoje now hx)
    | some l =>
      by_cases hne : some l ≠ prevLevel s (rowEvoId r)
      · exact Or.inr ⟨l, rfl, syncOneRow_history_insert s r hoje now hid' hx hne⟩
      · exact Or.inl (syncOneRow_history_noop_eq s r hoje now hx (not_ne_iff.mp hne))

/-- The clients table of a sync step is either unchanged (skipped row) or
the upsert of the row built from the DataFrame record. -/
theorem syncOneRow_clients_shape (s : DBState) (r : DfRow) (hoje now : String) :
    (syncOneRow s r hoje now).clients = s.clients ∨
    (syncOneRow s r hoje now).clients = upsertClient s.clients (newClientRow r now) := by
  unfold syncOneRow
  by_cases hid : (rowEvoId r == "") = true
  · left
    rw [if_pos hid]
  · rw [if_neg hid]
    cases hx : (rowExtract r).2 with
    | none => right; rfl
    | some l =>
      dsimp only
      by_cases hne : some l ≠ prevLevel s (rowEvoId r)
      · right
        rw [if_pos hne]
      · right
        rw [if_neg hne]

/-! ## Claim theorems -/

/-- C1: Idempotence of level recording — for a client whose stored level
differs from the observed valid level `L`, one sync run inserts exactly one
`level_history` row for that client, and a second run with the same
observed level is a no-op on `level_history` (the client's history row
count is unchanged).  The second conjunct holds for every starting state. -/
theorem claim_C1 (s : DBState) (r : DfRow) (L : String) (h1 n1 h2 n2 : String)
    (hid : (rowEvoId r == "") = false)
    (hex : (rowExtract r).2 = some L)
    (_hval : (levelOrder L).isSome = true) :
    (prevLevel s (rowEvoId r) ≠ some L →
       histCount (syncClientsFromDf s [r] h1 n1) (rowEvoId r) =
         histCount s (rowEvoId r) + 1) ∧
    histCount (syncClientsFromDf (syncClientsFromDf s [r] h1 n1) [r] h2 n2)
        (rowEvoId r) =
      histCount (syncClientsFromDf s [r] h1 n1) (rowEvoId r) := by
  have hstep : ∀ (st : DBState) (hj nw : String),
      syncClientsFromDf st [r] hj nw = syncOneRow st r hj nw := fun _ _ _ => rfl
  constructor
  · intro hprev
    have hne : some L ≠ prevLevel s (rowEvoId r) := fun e => hprev e.symm
    rw [hstep, histCount, histCount,
      syncOneRow_history_insert s r h1 n1 hid hex hne, List.filter_append]
    simp [newHistRow]
  · have hp1 : prevLevel (syncOneRow s r h1 n1) (rowEvoId r) = some L := by
      rw [prevLevel_syncOneRow s r h1 n1 hid, hex]
    rw [hstep, hstep, histCount, histCount,
      syncOneRow_history_noop_eq (syncOneRow s r h1 n1) r h2 n2 hex hp1.symm]

/-- Witness for C1 at client 7 observed as `MARIA 1B` on an empty
database. -/
theorem claim_C1_witness :
    histCount (syncClientsFromDf emptyDB [rowMaria1B] "2025-10-01" "t1")
        (rowEvoId rowMaria1B) =
      histCount emptyDB (rowEvoId rowMaria1B) + 1 ∧
    histCount (syncClientsFromDf (syncClientsFromDf emptyDB [rowMaria1B] "2025-10-01" "t1")
        [rowMaria1B] "2025-10-02" "t2") (rowEvoId rowMaria1B) =
      histCount (syncClientsFromDf emptyDB [rowMaria1B] "2025-10-01" "t1")
        (rowEvoId rowMaria1B) := by
  have h := claim_C1 emptyDB rowMaria1B "1B" "2025-10-01" "t1" "2025-10-02" "t2"
    (by decide) (by decide) (by decide)
  exact ⟨h.1 (by decide), h.2⟩

/-- C2 counterexample: the no-duplicate invariant fails on a reachable
state.  Syncing client 7 as `MARIA 1B`, then as `MARIA` (no level — the
upsert nulls the stored `nivel_atual` and writes no history), then as
`MARIA 1B` again yields two consecutive history entries with the same
level `1B` in the client's `(data, id)` order. -/
theorem claim_C2_counterexample :
    (sortHist (stDup.history.filter (fun h => h.evoId == "7"))).map
        (fun h => h.nivel) = ["1B", "1B"] := by decide

/-- C2 amended: a history row is written only when the newly observed level
differs from the client's *stored* `nivel_atual` (not from the last history
entry): any run of the sync either leaves the history unchanged or appends
one row whose level differs from the stored level read before the upsert. -/
theorem claim_C2_amended (s : DBState) (r : DfRow) (hoje now : String) :
    (syncOneRow s r hoje now).history = s.history ∨
    ∃ l, (rowExtract r).2 = some l ∧ some l ≠ prevLevel s (rowEvoId r) ∧
         (syncOneRow s r hoje now).history = s.history ++ [newHistRow s r hoje l] := by
  by_cases hid : (rowEvoId r == "") = true
  · left
    rw [syncOneRow_skip s r hoje now hid]
  · have hid' : (rowEvoId r == "") = false := by
      cases hb : (rowEvoId r == "")
      · rfl
      · exact absurd hb hid
    cases hx : (rowExtract r).2 with
    | none => exact Or.inl (syncOneRow_history_noop_none s r hoje now hx)
    | some l =>
      by_cases hne : some l ≠ prevLevel s (rowEvoId r)
      · exact Or.inr ⟨l, rfl, hne, syncOneRow_history_insert s r hoje now hid' hx hne⟩
      · exact Or.inl (syncOneRow_history_noop_eq s r hoje now hx (not_ne_iff.mp hne))

/-- Witness for the amended C2: the first sync of client 7 appends exactly
the guarded history row. -/
theorem claim_C2_witness :
    (syncOneRow emptyDB rowMaria1B "2025-10-01" "t1").history =
      emptyDB.history ++ [newHistRow emptyDB rowMaria1B "2025-10-01" "1B"] := by
  rcases claim_C2_amended emptyDB rowMaria1B "2025-10-01" "t1" with h | ⟨l, hl, _, hh⟩
  · exact absurd h (by decide)
  · have h2 : (rowExtract rowMaria1B).2 = some "1B" := by decide
    have hl' : l = "1B" := (Option.some.inj (h2.symm.trans hl)).symm
    rw [← hl']
    exact hh

/-- C3: the extractor is total and degrades to a "no level" result: `None`
or empty input yields the empty label and no level; an input whose text
contains no valid level pattern yields the trimmed original label and no
level — in both `_extract_nome_e_nivel` and `split_nome_e_nivel`. -/
theorem claim_C3 (ns : Option String) :
    ((ns = none ∨ ns = some "") →
        extractNomeENivel ns = ("", none) ∧ splitNomeENivel ns = ("", none, none)) ∧
    (∀ s, ns = some s → validLevelMatches (pyStrip s) = [] →
        extractNomeENivel ns = (pyStrip s, none) ∧
        splitNomeENivel ns = (pyStrip s, none, none)) := by
  constructor
  · rintro (rfl | rfl)
    · exact ⟨rfl, rfl⟩
    · exact ⟨by decide, by decide⟩
  · rintro s rfl hval
    have hms : (levelMatches (pyStrip s)).isEmpty = true ∨
        (levelMatches (pyStrip s)).filter (fun m => (levelOrder m).isSome) = [] := by
      cases hi : (levelMatches (pyStrip s)).isEmpty
      · exact Or.inr hval
      · exact Or.inl rfl
    constructor
    · simp only [extractNomeENivel]
      by_cases h0 : (pyStrip s == "") = true
      · have he : pyStrip s = "" := by simpa using h0
        rw [if_pos h0, he]
      · rw [if_neg h0]
        rcases hms with hi | hv
        · rw [if_pos hi]
        · by_cases hi : (levelMatches (pyStrip s)).isEmpty = true
          · rw [if_pos hi]
          · rw [if_neg hi, hv]
    · simp only [splitNomeENivel]
      by_cases hraw : (s == "") = true
      · have he : s = "" := by simpa using hraw
        rw [if_pos hraw, he]
        exact rfl
      · rw [if_neg hraw]
        rcases hms with hi | hv
        · rw [if_pos hi]
        · by_cases hi : (levelMatches (pyStrip s)).isEmpty = true
          · rw [if_pos hi]
          · rw [if_neg hi, hv]

/-- Witness for C3 at a level-free name and at `None`. -/
theorem claim_C3_witness :
    extractNomeENivel (some "Maria Oliveira") = (pyStrip "Maria Oliveira", none) ∧
    splitNomeENivel (some "Maria Oliveira") = (pyStrip "Maria Oliveira", none, none) ∧
    extractNomeENivel none = ("", none) := by
  obtain ⟨ha, hb⟩ := (claim_C3 (some "Maria Oliveira")).2 "Maria Oliveira" rfl (by decide)
  exact ⟨ha, hb, ((claim_C3 none).1 (Or.inl rfl)).1⟩

/-- C4: when more than one valid level token is found, the level returned by
both extractors is a matched token of maximum rank; and the rank maximum of
`2A`, `3C`, `1D` is `3C`. -/
theorem claim_C4 (s : String)
    (hmulti : 1 < (validLevelMatches (pyStrip s)).length) :
    (∃ b, (extractNomeENivel (some s)).2 = some b ∧
          (splitNomeENivel (some s)).2.1 = some b ∧
          b ∈ validLevelMatches (pyStrip s) ∧
          ∀ m ∈ validLevelMatches (pyStrip s), rankKey m ≤ rankKey b) ∧
    pyMaxBy rankKey "2A" ["3C", "1D"] = "3C" := by
  refine ⟨?_, by decide⟩
  cases hv : validLevelMatches (pyStrip s) with
  | nil =>
    rw [hv] at hmulti
    exact absurd hmulti (by simp)
  | cons x xs =>
    have hex := extract_eq_max s x xs hv
    refine ⟨pyMaxBy rankKey x xs, hex, ?_, ?_, ?_⟩
    · rw [(split_eq_extract s).1, hex]
    · exact (pyMaxBy_spec rankKey x xs).1
    · exact (pyMaxBy_spec rankKey x xs).2

/-- Witness for C4 at a three-token label. -/
theorem claim_C4_witness :
    (extractNomeENivel (some "A 2A 3C 1D")).2 = some "3C" ∧
    pyMaxBy rankKey "2A" ["3C", "1D"] = "3C" := by
  obtain ⟨⟨b, hb, _, hmem, hmax⟩, hpy⟩ := claim_C4 "A 2A 3C 1D" (by decide)
  have hl : validLevelMatches (pyStrip "A 2A 3C 1D") = ["2A", "3C", "1D"] := by decide
  rw [hl] at hmem hmax
  have h3 := hmax "3C" (by simp)
  have hb3 : b = "3C" := by
    rcases List.mem_cons.mp hmem with rfl | hmem
    · exact absurd h3 (by decide)
    · rcases List.mem_cons.mp hmem with rfl | hmem
      · rfl
      · rcases List.mem_cons.mp hmem with rfl | hmem
        · exact absurd h3 (by decide)
        · cases hmem
  rw [hb3] at hb
  exact ⟨hb, hpy⟩

/-- C5 counterexample: no discipline tag is returned.  The spec requires the
extractor to tag `MARIA 1BSK` with `SK` and `MARIA 1BSB` with `SB`; but
`split_nome_e_nivel` maps the two inputs to identical outputs, so no
function of the returned value can be the required discipline tag. -/
theorem claim_C5_counterexample :
    splitNomeENivel (some "MARIA 1BSK") = splitNomeENivel (some "MARIA 1BSB") ∧
    ¬ ∃ d : String × Option String × Option Nat → Discipline,
        d (splitNomeENivel (some "MARIA 1BSK")) = Discipline.SK ∧
        d (splitNomeENivel (some "MARIA 1BSB")) = Discipline.SB := by
  refine ⟨by decide, ?_⟩
  rintro ⟨d, h1, h2⟩
  rw [show splitNomeENivel (some "MARIA 1BSK") = splitNomeENivel (some "MARIA 1BSB")
        from by decide] at h1
  rw [h1] at h2
  cases h2

/-- C5 amended: the match tolerates `SK`/`SB` glued after the code and
`split_nome_e_nivel` strips the code together with a trailing
`SK`/`SKI`/`SB`/`SBI` from the clean label, but neither extractor returns
any discipline information — SK- and SB-suffixed inputs are
indistinguishable in `split_nome_e_nivel`'s output. -/
theorem claim_C5_amended :
    splitNomeENivel (some "MARIA 1BSK") = ("MARIA", some "1B", some 11) ∧
    splitNomeENivel (some "MARIA 1BSB") = ("MARIA", some "1B", some 11) ∧
    extractNomeENivel (some "MARIA 1BSK") = ("MARIA 1BSK", some "1B") ∧
    extractNomeENivel (some "MARIA 1BSB") = ("MARIA 1BSB", some "1B") :=
  ⟨by decide, by decide, by decide, by decide⟩

/-- C6 counterexample: on `João Paulo 3C` the extractor's rank is `32`
(`LEVEL_ORDER`'s `digit*10 + letter` scheme), not `10` as the claim
states. -/
theorem claim_C6_counterexample :
    (splitNomeENivel (some "João Paulo 3C")).2.2 = some 32 ∧
    (splitNomeENivel (some "João Paulo 3C")).2.2 ≠ some 10 ∧
    (extractNomeENivel (some "João Paulo 3C")).2 = some "3C" :=
  ⟨by decide, by decide, by decide⟩

/-- C6 amended: `extract("João Paulo 3C")` yields level `3C`; the rank the
extractor attaches (and the sync stores) is `LEVEL_ORDER["3C"] = 32`, while
`10` is `3C`'s 0-based index in the 16-code order, computed only by the
evolution page's `LEVEL_INDEX`. -/
theorem claim_C6_amended :
    (extractNomeENivel (some "João Paulo 3C")).2 = some "3C" ∧
    splitNomeENivel (some "João Paulo 3C") = ("João Paulo", some "3C", some 32) ∧
    levelOrder "3C" = some 32 ∧
    levelIndex "3C" = some 10 :=
  ⟨by decide, by decide, by decide, by decide⟩

/-- C7 counterexample: the sync stamps today's date unconditionally.  Even
for a client whose most recent attended session date is known
(2025-01-01), the inserted history row carries today's date (2025-10-12),
whereas the spec's fallback chain would use the session date. -/
theorem claim_C7_counterexample :
    (syncClientsFromDf emptyDB [rowMaria1B] "2025-10-12" "t1").history.map
        (fun h => h.data) = ["2025-10-12"] ∧
    specEventDate (some "2025-01-01") "2025-10-12" = "2025-01-01" ∧
    ("2025-10-12" : String) ≠ "2025-01-01" :=
  ⟨by decide, rfl, by decide⟩

/-- C7 amended: every history row inserted by a sync step carries
`event_date = hoje` (today's date at sync time); no session-date lookup
exists, and the "fallback" therefore always produces a usable date. -/
theorem claim_C7_amended (s : DBState) (r : DfRow) (hoje now : String) :
    (syncOneRow s r hoje now).history.take s.history.length = s.history ∧
    ∀ h ∈ (syncOneRow s r hoje now).history.drop s.history.length, h.data = hoje := by
  rcases syncOneRow_history_shape s r hoje now with h | ⟨l, _, h⟩
  · rw [h]
    refine ⟨List.take_length _, ?_⟩
    rw [List.drop_length]
    intro x hx
    cases hx
  · rw [h, take_append_self, drop_append_self]
    refine ⟨rfl, ?_⟩
    intro x hx
    rcases List.mem_singleton.mp hx with rfl
    rfl

/-- Witness for the amended C7 on an empty database. -/
theorem claim_C7_witness :
    (syncOneRow emptyDB rowMaria1B "2025-10-12" "t1").history.take 0 = [] ∧
    (newHistRow emptyDB rowMaria1B "2025-10-12" "1B").data = "2025-10-12" := by
  have h := claim_C7_amended emptyDB rowMaria1B "2025-10-12" "t1"
  exact ⟨h.1, h.2 _ (by decide)⟩

/-- C8: the recent-changes view flags an entry by comparing it with the
immediately preceding entry of the same client, and a client whose only
history entry is a baseline dated before `ZERO_ACTIVATION_DATE` never
appears in the output, for every `cutoff` (`since_date`), even one at or
before the entry's date. -/
theorem claim_C8 (hist : List HistoryRow) (cutoff cid : String) (r : HistoryRow)
    (hone : hist.filter (fun h => h.evoId == cid) = [r])
    (hdate : strLt r.data ZERO_ACTIVATION_DATE = true) :
    (recentChanges hist cutoff).filter (fun h => h.evoId == cid) = [] ∧
    (∀ (p : Option String) (pre post : List HistoryRow) (a b : HistoryRow),
        a.nivel = b.nivel →
        markChanges p (pre ++ a :: b :: post) =
          markChanges p (pre ++ [a]) ++ (b, false) :: markChanges (some b.nivel) post) := by
  refine ⟨?_, markChanges_dup⟩
  rw [List.filter_eq_nil_iff]
  intro h hmem
  unfold recentChanges at hmem
  have hmem' := List.mem_of_mem_filter hmem
  obtain ⟨cid', hcid', hin⟩ := List.mem_flatMap.mp hmem'
  have hsub : h ∈ hist.filter (fun x => x.evoId == cid') :=
    mem_sortHist _ _ (mem_clientChanges _ _ hin)
  have hpe : (h.evoId == cid') = true := (List.mem_filter.mp hsub).2
  by_cases hcc : cid' = cid
  · subst hcc
    rw [hone] at hin
    have hfalse : strLe ZERO_ACTIVATION_DATE r.data = false := strLe_false_of_strLt hdate
    simp [clientChanges, sortHist, insertSorted, markChanges, hfalse] at hin
  · intro hq
    have e1 : h.evoId = cid' := by simpa using hpe
    have e2 : h.evoId = cid := by simpa using hq
    exact hcc (e1.symm.trans e2)

/-- Witness for C8: a lone baseline of client 7 dated 2025-10-01 (before
the 2025-11-17 activation date) produces no recent-changes output even for
a cutoff of 2025-09-01. -/
theorem claim_C8_witness :
    (recentChanges [baselineRow] "2025-09-01").filter (fun h => h.evoId == "7") = [] :=
  (claim_C8 [baselineRow] "2025-09-01" "7" baselineRow (by decide) (by decide)).1

/-- C9: an upsert onto an existing client row overwrites every mutable
column with the new values while `criado_em` keeps its stored value
whenever that is non-null (first-write-wins for creation metadata,
last-write-wins for everything else). -/
theorem claim_C9 (cs : List ClientRow) (new c : ClientRow)
    (hf : cs.find? (fun x => x.evoId == new.evoId) = some c) :
    (upsertClient cs new).find? (fun x => x.evoId == new.evoId) =
        some (updatedRow c new) ∧
    (∀ d, c.criadoEm = some d → (updatedRow c new).criadoEm = some d) ∧
    (c.criadoEm = none → (updatedRow c new).criadoEm = new.criadoEm) ∧
    (updatedRow c new).evoId = new.evoId ∧
    (updatedRow c new).nomeBruto = new.nomeBruto ∧
    (updatedRow c new).nomeLimpo = new.nomeLimpo ∧
    (updatedRow c new).sexo = new.sexo ∧
    (updatedRow c new).nascimento = new.nascimento ∧
    (updatedRow c new).idade = new.idade ∧
    (updatedRow c new).rua = new.rua ∧
    (updatedRow c new).numero = new.numero ∧
    (updatedRow c new).complemento = new.complemento ∧
    (updatedRow c new).bairro = new.bairro ∧
    (updatedRow c new).cidade = new.cidade ∧
    (updatedRow c new).uf = new.uf ∧
    (updatedRow c new).cep = new.cep ∧
    (updatedRow c new).email = new.email ∧
    (updatedRow c new).telefone = new.telefone ∧
    (updatedRow c new).nivelAtual = new.nivelAtual ∧
    (updatedRow c new).nivelOrdem = new.nivelOrdem ∧
    (updatedRow c new).updatedAt = new.updatedAt := by
  refine ⟨?_, ?_, ?_, rfl, rfl, rfl, rfl, rfl, rfl, rfl, rfl, rfl, rfl, rfl, rfl,
    rfl, rfl, rfl, rfl, rfl, rfl⟩
  · rw [upsert_find, hf]
    rfl
  · intro d hd
    simp [updatedRow, coalesce, hd]
  · intro hd
    simp [updatedRow, coalesce, hd]

/-- Witness for C9: updating client 7 keeps the 2020 creation date while
the level moves to `1B`. -/
theorem claim_C9_witness :
    (upsertClient [clientOld] clientNew).find? (fun x => x.evoId == clientNew.evoId) =
        some (updatedRow clientOld clientNew) ∧
    (updatedRow clientOld clientNew).criadoEm = some "2020-01-01" ∧
    (updatedRow clientOld clientNew).nivelAtual = some "1B" := by
  have h := claim_C9 [clientOld] clientNew clientOld (by decide)
  exact ⟨h.1, h.2.1 "2020-01-01" rfl, rfl⟩

/-- C10: every history row the sync inserts has a valid level code, a
`nivel_ordem` equal to `LEVEL_ORDER` of that code, and origin
`sync_clientes`; and every clients row after the sync is either an
untouched old row or has `nivel_ordem = LEVEL_ORDER.get(nivel_atual)`,
null exactly when `nivel_atual` is null. -/
theorem claim_C10 (s : DBState) (r : DfRow) (hoje now : String) :
    (syncOneRow s r hoje now).history.take s.history.length = s.history ∧
    (∀ h ∈ (syncOneRow s r hoje now).history.drop s.history.length,
        (levelOrder h.nivel).isSome = true ∧ h.nivelOrdem = levelOrder h.nivel ∧
        h.origem = "sync_clientes") ∧
    (∀ c ∈ (syncOneRow s r hoje now).clients,
        c ∈ s.clients ∨
          (c.nivelOrdem = c.nivelAtual.bind levelOrder ∧
           (c.nivelAtual = none ↔ c.nivelOrdem = none))) := by
  have hsh := syncOneRow_history_shape s r hoje now
  refine ⟨?_, ?_, ?_⟩
  · rcases hsh with h | ⟨l, _, h⟩
    · rw [h]
      exact List.take_length _
    · rw [h]
      exact take_append_self _ _
  · rcases hsh with h | ⟨l, hx, h⟩
    · rw [h, List.drop_length]
      intro x hx
      cases hx
    · rw [h, drop_append_self]
      intro x hxm
      rcases List.mem_singleton.mp hxm with rfl
      have hspec := extract_level_spec (rowNomeBruto r) l hx
      have h1 : l ∈ (levelMatches (pyStrip (rowNomeBruto r))).filter
          (fun m => (levelOrder m).isSome) := hspec.1
      have hvalid : (levelOrder l).isSome = true := (List.mem_filter.mp h1).2
      exact ⟨hvalid, rfl, rfl⟩
  · rcases syncOneRow_clients_shape s r hoje now with h | h
    · rw [h]
      intro c hc
      exact Or.inl hc
    · rw [h]
      intro c hc
      rcases mem_upsertClient s.clients (newClientRow r now) c hc with h1 | ⟨ha, ho⟩
      · exact Or.inl h1
      · right
        rw [ha, ho]
        refine ⟨rfl, ?_⟩
        show (rowExtract r).2 = none ↔ (rowExtract r).2.bind levelOrder = none
        cases hx2 : (rowExtract r).2 with
        | none => simp
        | some l =>
          have hspec := extract_level_spec (rowNomeBruto r) l hx2
          have h1 : l ∈ (levelMatches (pyStrip (rowNomeBruto r))).filter
              (fun m => (levelOrder m).isSome) := hspec.1
          have hvalid : (levelOrder l).isSome = true := (List.mem_filter.mp h1).2
          obtain ⟨k, hk⟩ := Option.isSome_iff_exists.mp hvalid
          simp [hk]

/-- Witness for C10: the history row of the first sync of client 7. -/
theorem claim_C10_witness :
    (levelOrder (newHistRow emptyDB rowMaria1B "2025-10-05" "1B").nivel).isSome = true ∧
    (newHistRow emptyDB rowMaria1B "2025-10-05" "1B").nivelOrdem =
      levelOrder (newHistRow emptyDB rowMaria1B "2025-10-05" "1B").nivel ∧
    (newHistRow emptyDB rowMaria1B "2025-10-05" "1B").origem = "sync_clientes" :=
  (claim_C10 emptyDB rowMaria1B "2025-10-05" "t1").2.1 _ (by decide)

end BornDashboard
